import Mathlib

/-!
Shallow embedding of the allure-parser program (main.go): the domain model
decoded from the Allure JSON artifacts, the Prometheus gauge state, the
per-cycle parse-and-publish pipeline `parseAllureReports`, the health
endpoint, and theorems settling the specification claims about them.

Numeric metric values are modelled as rationals; Go `float64(x) / 1000`
becomes rational division. A Prometheus `GaugeVec` is modelled as an
association list from label tuple to value (`WithLabelValues(..).Set` /
`.Inc` update the first matching entry or append; `Reset` empties the
list); a plain `Gauge` is an `Option` value, `none` meaning never set.
Wall-clock instants are natural numbers (seconds); the zero value of
`time.Time` is instant `0`.
-/

set_option autoImplicit false

namespace AllureParser

/-- Decoded `widgets/summary.json` (struct `AllureSummary`): the nested
`statistic` and `time` objects are flattened to their used fields. -/
structure AllureSummary where
  passed : Int
  failed : Int
  broken : Int
  skipped : Int
  duration : Int
deriving DecidableEq, Repr

/-- A `labels` entry of a test case (struct `Label`). -/
structure Label where
  name : String
  value : String
deriving DecidableEq, Repr

/-- A `steps` entry of a test case (struct `Step`). -/
structure Step where
  name : String
  status : String
deriving DecidableEq, Repr

/-- Decoded `data/test-cases/*.json` (struct `AllureTestCase`). -/
structure AllureTestCase where
  uuid : String
  name : String
  status : String
  start : Int
  stop : Int
  labels : List Label
  steps : List Step
deriving DecidableEq, Repr

/-- An `items` entry of the history trend (struct `HistoryItem`), flattened
to the used field `data.failed`. -/
structure HistoryItem where
  failed : Int
deriving DecidableEq, Repr

/-- Decoded `widgets/history-trend.json` (struct `AllureHistoryTrend`). -/
structure AllureHistoryTrend where
  items : List HistoryItem
deriving DecidableEq, Repr

/-- A Prometheus `GaugeVec`: label tuple to current value, first match
authoritative. -/
abbrev GaugeVec (κ : Type) := List (κ × ℚ)

/-- `WithLabelValues(k).Set(v)`: overwrite the first entry for `k`, or
append a fresh child. -/
def setG {κ : Type} [DecidableEq κ] : GaugeVec κ → κ → ℚ → GaugeVec κ
  | [], k, v => [(k, v)]
  | (a, w) :: t, k, v => if a = k then (a, v) :: t else (a, w) :: setG t k v

/-- `WithLabelValues(k).Inc()`: add one to the first entry for `k`; a fresh
child starts at `0`, so a missing key becomes `1`. -/
def incG {κ : Type} [DecidableEq κ] : GaugeVec κ → κ → GaugeVec κ
  | [], k => [(k, 1)]
  | (a, w) :: t, k => if a = k then (a, w + 1) :: t else (a, w) :: incG t k

/-- The value currently exported for label tuple `k`, if that child exists. -/
def lookupG {κ : Type} [DecidableEq κ] : GaugeVec κ → κ → Option ℚ
  | [], _ => none
  | (a, w) :: t, k => if a = k then some w else lookupG t k

/-- The exported value for `k` read as a number, `0` when the child is
absent (used to state counting facts about `incG`). -/
def qval {κ : Type} [DecidableEq κ] (m : GaugeVec κ) (k : κ) : ℚ :=
  (lookupG m k).getD 0

/-- The full gauge state of the global `metrics` registry struct. -/
structure MetricsState where
  testsTotal : GaugeVec String
  suiteDuration : Option ℚ
  testDuration : GaugeVec (String × String)
  testStatus : GaugeVec (String × String × String)
  flakyRatio : Option ℚ
  environmentInfo : GaugeVec (String × String)
  historyTrend : GaugeVec String
  testsByLabel : GaugeVec (String × String)
  stepsTotal : GaugeVec (String × String)
deriving DecidableEq, Repr

/-- The registry right after `prometheus.MustRegister`: no children, the
plain gauges never set. -/
def initialMetrics : MetricsState :=
  { testsTotal := [], suiteDuration := none, testDuration := [],
    testStatus := [], flakyRatio := none, environmentInfo := [],
    historyTrend := [], testsByLabel := [], stepsTotal := [] }

/-- `resetMetrics`: `Reset()` on the seven vector families; the plain
gauges `suiteDuration` and `flakyRatio` have no `Reset` and keep their
values. -/
def resetMetrics (s : MetricsState) : MetricsState :=
  { s with
    testsTotal := [], testDuration := [], testStatus := [],
    environmentInfo := [], historyTrend := [], testsByLabel := [],
    stepsTotal := [] }

/-- The metric writes of `parseEnvironment` after a successful decode: one
`environmentInfo` child per entry, set to `1`. -/
def updateEnvironmentMetrics (env : List (String × String)) (s : MetricsState) :
    MetricsState :=
  { s with
    environmentInfo := env.foldl (fun m kv => setG m kv 1) s.environmentInfo }

/-- ASCII lower-casing of one character (the label names and statuses this
program compares are ASCII). -/
def lowerChar (c : Char) : Char :=
  if 65 ≤ c.toNat ∧ c.toNat ≤ 90 then Char.ofNat (c.toNat + 32) else c

/-- `strings.ToLower` on the ASCII strings this program handles. -/
def lowerStr (s : String) : String :=
  String.mk (s.data.map lowerChar)

/-- `strings.EqualFold` restricted to the ASCII strings this program
compares: equality after lower-casing. -/
def eqFold (s t : String) : Bool :=
  lowerStr s == lowerStr t

/-- `getLabelValue`: value of the first label whose name matches
case-insensitively, else the literal `"unknown"`. -/
def getLabelValue (labels : List Label) (name : String) : String :=
  match labels with
  | [] => "unknown"
  | l :: t => if eqFold l.name name then l.value else getLabelValue t name

/-- `isUsefulLabel`: membership of the lower-cased name in the fixed
allow-list map. -/
def isUsefulLabel (name : String) : Bool :=
  ["epic", "feature", "story", "severity", "owner", "layer"].contains
    (lowerStr name)

/-- `updateSummaryMetrics`: the four per-status children of `testsTotal`
and the suite duration in seconds. -/
def updateSummaryMetrics (sm : AllureSummary) (s : MetricsState) : MetricsState :=
  { s with
    testsTotal :=
      setG (setG (setG (setG s.testsTotal "passed" (sm.passed : ℚ))
        "failed" (sm.failed : ℚ)) "broken" (sm.broken : ℚ))
        "skipped" (sm.skipped : ℚ),
    suiteDuration := some ((sm.duration : ℚ) / 1000) }

/-- `updateHistoryMetrics`: early return on an empty `items`; otherwise one
`historyTrend` child per point keyed `build_i`, and the flaky ratio
(points with `failed > 0` over total points). -/
def updateHistoryMetrics (h : AllureHistoryTrend) (s : MetricsState) : MetricsState :=
  if h.items = [] then s
  else
    { s with
      historyTrend :=
        h.items.enum.foldl
          (fun m p => setG m ("build_" ++ toString p.1) ((p.2.failed : ℚ)))
          s.historyTrend,
      flakyRatio :=
        some (((h.items.filter fun it => decide (0 < it.failed)).length : ℚ) /
          (h.items.length : ℚ)) }

/-- The `stepsByStatus` map built by the loop over `tc.Steps`: a count per
step status (statuses listed in first-occurrence order). -/
def countStepsByStatus (steps : List Step) : GaugeVec String :=
  steps.foldl (fun m st => incG m st.status) []

/-- The loop publishing `stepsByStatus` into `stepsTotal`, one child per
(test name, step status). -/
def publishStepCounts (testName : String) (counts : GaugeVec String)
    (m : GaugeVec (String × String)) : GaugeVec (String × String) :=
  counts.foldl (fun acc p => setG acc (testName, p.1) p.2) m

/-- The loop over `tc.Labels`: `Inc` on `testsByLabel` at (label name,
label value) for each allow-listed label, others skipped. -/
def accumulateLabels (labels : List Label) (m : GaugeVec (String × String)) :
    GaugeVec (String × String) :=
  labels.foldl
    (fun acc l => if isUsefulLabel l.name then incG acc (l.name, l.value) else acc)
    m

/-- `updateTestCaseMetrics`: duration, status indicator, step breakdown and
tag grouping for one decoded test case. -/
def updateTestCaseMetrics (tc : AllureTestCase) (s : MetricsState) : MetricsState :=
  let duration : ℚ := ((tc.stop - tc.start : Int) : ℚ) / 1000
  let s1 := { s with
    testDuration :=
      setG s.testDuration (tc.name, getLabelValue tc.labels "suite") duration }
  let statusValue : ℚ := if tc.status = "passed" then 1 else 0
  let s2 := { s1 with
    testStatus :=
      setG s1.testStatus
        (tc.name, tc.status, getLabelValue tc.labels "severity") statusValue }
  let s3 := { s2 with
    stepsTotal :=
      publishStepCounts tc.name (countStepsByStatus tc.steps) s2.stepsTotal }
  { s3 with testsByLabel := accumulateLabels tc.labels s3.testsByLabel }

/-- One cycle of inputs as decoded from the artifact directory: `none`
marks a read or unmarshal failure of that file (for test cases,
per-file). `globOk = false` marks a `filepath.Glob` error. -/
structure CycleInput where
  environment : Option (List (String × String))
  summary : Option AllureSummary
  history : Option AllureHistoryTrend
  globOk : Bool
  testCases : List (Option AllureTestCase)
deriving Repr

/-- The loop over enumerated test-case files: decode failures are skipped,
successes update the metrics in order. -/
def tcFold (l : List (Option AllureTestCase)) (s : MetricsState) : MetricsState :=
  l.foldl
    (fun st otc => match otc with
      | some tc => updateTestCaseMetrics tc st
      | none => st) s

/-- `parseAllureReports` without the deferred timestamp write: reset, then
environment (best effort), then summary (required: failure returns the
error immediately), then history (best effort), then the glob (failure
returns the error), then the per-file test-case loop. The `Bool` is
success (`error == nil`). -/
def parseAllureReports (inp : CycleInput) (s : MetricsState) : Bool × MetricsState :=
  let s0 := resetMetrics s
  let s1 := match inp.environment with
    | some env => updateEnvironmentMetrics env s0
    | none => s0
  match inp.summary with
  | none => (false, s1)
  | some sm =>
    let s2 := updateSummaryMetrics sm s1
    let s3 := match inp.history with
      | some h => updateHistoryMetrics h s2
      | none => s2
    if inp.globOk then (true, tcFold inp.testCases s3)
    else (false, s3)

/-- The shared state seen by the HTTP handlers: the registry plus the
`lastParseTime` global. -/
structure ParserState where
  metrics : MetricsState
  lastParseTime : Nat
deriving DecidableEq, Repr

/-- One whole call of `parseAllureReports` including its `defer`: the
deferred function stores the current wall clock in `lastParseTime` on
every exit path, error or not. -/
def parseCycle (inp : CycleInput) (now : Nat) (ps : ParserState) :
    Bool × ParserState :=
  let r := parseAllureReports inp ps.metrics
  (r.1, { metrics := r.2, lastParseTime := now })

/-- Outcome of the `/health` handler. -/
inductive HealthStatus where
  | ok
  | unhealthy (reason : String)
deriving DecidableEq, Repr

/-- `5 * time.Minute`, in seconds. -/
def staleThreshold : Nat := 5 * 60

/-- `healthCheck`: service unavailable with body `UNHEALTHY: Data is stale`
when more than five minutes have passed since `lastParseTime`, else `OK`. -/
def healthCheck (now : Nat) (ps : ParserState) : HealthStatus :=
  if staleThreshold < now - ps.lastParseTime then
    HealthStatus.unhealthy "Data is stale"
  else HealthStatus.ok

/-! ## Gauge lemmas -/

theorem lookupG_setG {κ : Type} [DecidableEq κ] (m : GaugeVec κ) (k k2 : κ)
    (v : ℚ) :
    lookupG (setG m k v) k2 = if k2 = k then some v else lookupG m k2 := by
  induction m with
  | nil =>
    by_cases h : k2 = k
    · subst h
      simp [setG, lookupG]
    · have h2 : ¬k = k2 := fun hc => h hc.symm
      simp [setG, lookupG, h, h2]
  | cons p t ih =>
    obtain ⟨a, w⟩ := p
    by_cases ha : a = k
    · subst ha
      by_cases h : k2 = a
      · subst h
        simp [setG, lookupG]
      · have h2 : ¬a = k2 := fun hc => h hc.symm
        simp [setG, lookupG, h, h2]
    · by_cases ha2 : a = k2
      · have h : ¬k2 = k := fun hc => ha (ha2.trans hc)
        simp [setG, lookupG, ha, ha2, h]
      · simp [setG, lookupG, ha, ha2, ih]

theorem lookupG_incG {κ : Type} [DecidableEq κ] (m : GaugeVec κ) (k k2 : κ) :
    lookupG (incG m k) k2 =
      if k2 = k then some ((lookupG m k2).getD 0 + 1) else lookupG m k2 := by
  induction m with
  | nil =>
    by_cases h : k2 = k
    · subst h
      simp [incG, lookupG]
    · have h2 : ¬k = k2 := fun hc => h hc.symm
      simp [incG, lookupG, h, h2]
  | cons p t ih =>
    obtain ⟨a, w⟩ := p
    by_cases ha : a = k
    · subst ha
      by_cases h : k2 = a
      · subst h
        simp [incG, lookupG]
      · have h2 : ¬a = k2 := fun hc => h hc.symm
        simp [incG, lookupG, h, h2]
    · by_cases ha2 : a = k2
      · have h : ¬k2 = k := fun hc => ha (ha2.trans hc)
        simp [incG, lookupG, ha, ha2, h]
      · simp [incG, lookupG, ha, ha2, ih]

theorem lookupG_setG_self {κ : Type} [DecidableEq κ] (m : GaugeVec κ) (k : κ)
    (v : ℚ) : lookupG (setG m k v) k = some v := by
  rw [lookupG_setG, if_pos rfl]

theorem lookupG_setG_ne {κ : Type} [DecidableEq κ] (m : GaugeVec κ)
    (k k2 : κ) (v : ℚ) (h : k2 ≠ k) :
    lookupG (setG m k v) k2 = lookupG m k2 := by
  rw [lookupG_setG, if_neg h]

theorem qval_incG {κ : Type} [DecidableEq κ] (m : GaugeVec κ) (k k2 : κ) :
    qval (incG m k) k2 = if k2 = k then qval m k2 + 1 else qval m k2 := by
  unfold qval
  rw [lookupG_incG]
  by_cases h : k2 = k <;> simp [h]

theorem lookupG_incG_ne {κ : Type} [DecidableEq κ] (m : GaugeVec κ)
    (k k2 : κ) (h : k2 ≠ k) : lookupG (incG m k) k2 = lookupG m k2 := by
  rw [lookupG_incG, if_neg h]

/-! ## Label lookup lemmas -/

theorem getLabelValue_no_match (labels : List Label) (name : String)
    (h : ∀ l ∈ labels, eqFold l.name name = false) :
    getLabelValue labels name = "unknown" := by
  induction labels with
  | nil => rfl
  | cons l t ih =>
    have hl := h l (List.mem_cons_self l t)
    simp only [getLabelValue, hl, Bool.false_eq_true, if_false]
    exact ih fun l2 hm => h l2 (List.mem_cons_of_mem l hm)

theorem getLabelValue_fold_invariant (labels : List Label)
    (name name2 : String) (h : lowerStr name = lowerStr name2) :
    getLabelValue labels name = getLabelValue labels name2 := by
  induction labels with
  | nil => rfl
  | cons l t ih =>
    simp only [getLabelValue, eqFold, h]
    by_cases hc : (lowerStr l.name == lowerStr name2) = true
    · simp [hc]
    · simp only [hc, Bool.false_eq_true, if_false]
      exact ih

/-- C7: the label lookup compares names case-insensitively (a label named
`Severity` answers a request for `severity` with its value), and when no
label name matches case-insensitively the literal `"unknown"` is
returned. -/
theorem C7_label_lookup :
    (∀ (labels : List Label) (name : String),
      (∀ l ∈ labels, eqFold l.name name = false) →
        getLabelValue labels name = "unknown") ∧
    (∀ (labels : List Label) (name name2 : String),
      lowerStr name = lowerStr name2 →
        getLabelValue labels name = getLabelValue labels name2) ∧
    getLabelValue [⟨"Severity", "critical"⟩] "severity" = "critical" :=
  ⟨getLabelValue_no_match, getLabelValue_fold_invariant, by decide⟩

/-- Witness for C7 at a concrete input: a test case whose labels hold no
name folding to `severity` yields the fallback `"unknown"`. -/
theorem C7_label_lookup_witness :
    getLabelValue [⟨"random", "x"⟩, ⟨"Owner", "bob"⟩] "severity" = "unknown" :=
  C7_label_lookup.1 [⟨"random", "x"⟩, ⟨"Owner", "bob"⟩] "severity" (by decide)

/-- C10: when several labels match the requested name case-insensitively,
the first match in the ordered label list wins; later duplicates never
influence the result. -/
theorem C10_first_match_wins (pre : List Label) (l : Label)
    (post : List Label) (name : String)
    (hpre : ∀ l2 ∈ pre, eqFold l2.name name = false)
    (hl : eqFold l.name name = true) :
    getLabelValue (pre ++ l :: post) name = l.value := by
  induction pre with
  | nil => simp [getLabelValue, hl]
  | cons p t ih =>
    have hp := hpre p (List.mem_cons_self p t)
    simp only [List.cons_append, getLabelValue, hp, Bool.false_eq_true, if_false]
    exact ih fun l2 hm => hpre l2 (List.mem_cons_of_mem p hm)

/-- Witness for C10 at a concrete input: with two labels folding to
`severity`, the earlier one (`v1`) is returned, not the later `v2`. -/
theorem C10_first_match_wins_witness :
    getLabelValue [⟨"random", "x"⟩, ⟨"Severity", "v1"⟩, ⟨"severity", "v2"⟩]
      "severity" = "v1" :=
  C10_first_match_wins [⟨"random", "x"⟩] ⟨"Severity", "v1"⟩
    [⟨"severity", "v2"⟩] "severity" (by decide) (by decide)

/-! ## Tag grouping lemmas -/

theorem accumulateLabels_nil (m : GaugeVec (String × String)) :
    accumulateLabels [] m = m := rfl

theorem accumulateLabels_cons (l : Label) (t : List Label)
    (m : GaugeVec (String × String)) :
    accumulateLabels (l :: t) m =
      accumulateLabels t
        (if isUsefulLabel l.name then incG m (l.name, l.value) else m) := rfl

theorem qval_accumulateLabels (ls : List Label)
    (m : GaugeVec (String × String)) (k : String × String) :
    qval (accumulateLabels ls m) k =
      qval m k +
        ((ls.filter fun l =>
          isUsefulLabel l.name && decide ((l.name, l.value) = k)).length : ℚ) := by
  induction ls generalizing m with
  | nil => simp [accumulateLabels_nil]
  | cons l t ih =>
    rw [accumulateLabels_cons]
    by_cases hu : isUsefulLabel l.name = true
    · rw [if_pos hu, ih, qval_incG]
      by_cases hk : k = (l.name, l.value)
      · have hc : ((l.name, l.value) = k) = True := by simp [hk]
        simp [hu, hk, hc, List.filter_cons]
        ring
      · have hc : ¬((l.name, l.value) = k) := fun h2 => hk h2.symm
        simp [hu, hk, hc, List.filter_cons]
    · rw [if_neg hu, ih]
      have hu2 : isUsefulLabel l.name = false := by
        cases h2 : isUsefulLabel l.name
        · rfl
        · exact absurd h2 hu
      simp [hu2, List.filter_cons]

theorem lookupG_accumulateLabels_not_useful (ls : List Label)
    (m : GaugeVec (String × String)) (k : String × String)
    (h : isUsefulLabel k.1 = false) :
    lookupG (accumulateLabels ls m) k = lookupG m k := by
  induction ls generalizing m with
  | nil => rfl
  | cons l t ih =>
    rw [accumulateLabels_cons]
    by_cases hu : isUsefulLabel l.name = true
    · rw [if_pos hu, ih]
      have hk : k ≠ (l.name, l.value) := by
        intro hc
        rw [hc] at h
        rw [hu] at h
        exact Bool.true_eq_false.mp h
      rw [lookupG_incG_ne m _ _ hk]
    · rw [if_neg hu, ih]

theorem updateTestCaseMetrics_testsByLabel (tc : AllureTestCase)
    (s : MetricsState) :
    (updateTestCaseMetrics tc s).testsByLabel =
      accumulateLabels tc.labels s.testsByLabel := rfl

/-- A test case carrying a mixed-case allow-listed label, used to expose
which key `tests_by_label` is incremented under. -/
def mixedCaseTc : AllureTestCase :=
  { uuid := "u1", name := "t1", status := "passed", start := 0, stop := 0,
    labels := [⟨"Epic", "x"⟩], steps := [] }

/-- Counterexample to C5 as stated: for the label `{name := Epic,
value := x}` the counter child keyed by the lower-cased name
`(epic, x)` does not exist after the update; the child keyed by the
original spelling `(Epic, x)` holds the count. -/
theorem C5_counterexample :
    lookupG (updateTestCaseMetrics mixedCaseTc initialMetrics).testsByLabel
      ("epic", "x") = none ∧
    lookupG (updateTestCaseMetrics mixedCaseTc initialMetrics).testsByLabel
      ("Epic", "x") = some 1 := by
  constructor <;>
    simp +decide [updateTestCaseMetrics, mixedCaseTc, initialMetrics,
      accumulateLabels, incG, setG, lookupG, getLabelValue,
      publishStepCounts, countStepsByStatus]

/-- C5 (amended): for every test case, the `tests_by_label` child at key
`k` grows by the number of labels whose (name, value) pair — the name in
its original spelling, not lower-cased — equals `k` and whose lower-cased
name is in the allow-list; keys whose name is not allow-listed are never
created. -/
theorem C5_tag_grouping (tc : AllureTestCase) (s : MetricsState)
    (k : String × String) :
    qval (updateTestCaseMetrics tc s).testsByLabel k =
      qval s.testsByLabel k +
        ((tc.labels.filter fun l =>
          isUsefulLabel l.name && decide ((l.name, l.value) = k)).length : ℚ) ∧
    (isUsefulLabel k.1 = false →
      lookupG (updateTestCaseMetrics tc s).testsByLabel k =
        lookupG s.testsByLabel k) := by
  rw [updateTestCaseMetrics_testsByLabel]
  exact ⟨qval_accumulateLabels tc.labels s.testsByLabel k,
    lookupG_accumulateLabels_not_useful tc.labels s.testsByLabel k⟩

/-- Witness for C5 at a concrete input: the non-allow-listed key
`(random, x)` is untouched by the update. -/
theorem C5_tag_grouping_witness :
    lookupG (updateTestCaseMetrics mixedCaseTc initialMetrics).testsByLabel
      ("random", "x") = lookupG initialMetrics.testsByLabel ("random", "x") :=
  (C5_tag_grouping mixedCaseTc initialMetrics ("random", "x")).2 (by decide)

/-! ## Per-test duration -/

theorem updateTestCaseMetrics_testDuration (tc : AllureTestCase)
    (s : MetricsState) :
    (updateTestCaseMetrics tc s).testDuration =
      setG s.testDuration (tc.name, getLabelValue tc.labels "suite")
        (((tc.stop - tc.start : ℤ) : ℚ) / 1000) := rfl

/-- A test case whose stop timestamp precedes its start timestamp. -/
def negTc : AllureTestCase :=
  { uuid := "u2", name := "t1", status := "failed", start := 1000, stop := 0,
    labels := [], steps := [] }

/-- Counterexample to C6 as stated: for stop = 0 < start = 1000 the
published `test_duration_seconds` child is exactly `-1`, a negative
value. -/
theorem C6_counterexample :
    lookupG (updateTestCaseMetrics negTc initialMetrics).testDuration
      ("t1", "unknown") = some (-1) ∧ (-1 : ℚ) < 0 := by
  constructor
  · simp +decide [updateTestCaseMetrics, negTc, initialMetrics, setG,
      lookupG, getLabelValue, publishStepCounts, countStepsByStatus,
      accumulateLabels]
  · norm_num

/-- C6 (amended): the published per-test duration is exactly
`(stop - start) / 1000` with no clamping, and it is negative whenever
`stop < start`. -/
theorem C6_duration_unclamped (tc : AllureTestCase) (s : MetricsState) :
    lookupG (updateTestCaseMetrics tc s).testDuration
      (tc.name, getLabelValue tc.labels "suite") =
      some (((tc.stop - tc.start : ℤ) : ℚ) / 1000) ∧
    (tc.stop < tc.start → (((tc.stop - tc.start : ℤ) : ℚ) / 1000) < 0) := by
  constructor
  · rw [updateTestCaseMetrics_testDuration, lookupG_setG_self]
  · intro h
    have h2 : ((tc.stop - tc.start : ℤ) : ℚ) < 0 := by
      exact_mod_cast sub_neg.mpr h
    exact div_neg_of_neg_of_pos h2 (by norm_num)

/-- Witness for C6 at a concrete input: `negTc` has stop < start and its
computed duration is negative. -/
theorem C6_duration_unclamped_witness :
    ((negTc.stop - negTc.start : ℤ) : ℚ) / 1000 < 0 :=
  (C6_duration_unclamped negTc initialMetrics).2 (by decide)

/-! ## Summary failure path and health -/

/-- A previously published snapshot with several live children, as left by
an earlier successful cycle. -/
def prevSnapshot : MetricsState :=
  { initialMetrics with
    testsTotal := [("passed", 5), ("failed", 1)],
    suiteDuration := some 3,
    testDuration := [(("t1", "suiteA"), 2)],
    flakyRatio := some (1/2) }

/-- A cycle in which reading `widgets/summary.json` fails (and the
optional files are absent as well). -/
def summaryFailInput : CycleInput :=
  { environment := none, summary := none, history := none, globOk := true,
    testCases := [] }

/-- Counterexample to C1 as stated: when the Summary load fails, the
aborted cycle does not leave the previously published snapshot intact —
the `tests_total` family has already been reset to empty. -/
theorem C1_counterexample :
    (parseAllureReports summaryFailInput prevSnapshot).1 = false ∧
    (parseAllureReports summaryFailInput prevSnapshot).2.testsTotal ≠
      prevSnapshot.testsTotal ∧
    (parseAllureReports summaryFailInput prevSnapshot).2.testsTotal = [] := by
  refine ⟨?_, ?_, ?_⟩ <;>
    simp +decide [parseAllureReports, summaryFailInput, prevSnapshot,
      initialMetrics, resetMetrics]

/-- C1 (amended): a failed Summary load aborts the cycle with an error
before any summary, history or test-case metric is set, but only after
the seven vector families were already reset (and environment metrics,
when loaded, re-set): the aborted cycle leaves the vector families
cleared rather than retaining the previous snapshot, and only the plain
gauges `suite_duration_seconds` and `flaky_tests_ratio` keep their
previously published values. -/
theorem C1_summary_failure_clears (inp : CycleInput) (s : MetricsState)
    (h : inp.summary = none) :
    (parseAllureReports inp s).1 = false ∧
    (parseAllureReports inp s).2 =
      (match inp.environment with
       | some env => updateEnvironmentMetrics env (resetMetrics s)
       | none => resetMetrics s) ∧
    (parseAllureReports inp s).2.testsTotal = [] ∧
    (parseAllureReports inp s).2.testDuration = [] ∧
    (parseAllureReports inp s).2.testStatus = [] ∧
    (parseAllureReports inp s).2.historyTrend = [] ∧
    (parseAllureReports inp s).2.testsByLabel = [] ∧
    (parseAllureReports inp s).2.stepsTotal = [] ∧
    (parseAllureReports inp s).2.suiteDuration = s.suiteDuration ∧
    (parseAllureReports inp s).2.flakyRatio = s.flakyRatio := by
  cases he : inp.environment <;>
    simp [parseAllureReports, h, he, updateEnvironmentMetrics, resetMetrics]

/-- Witness for C1 at a concrete input: at `summaryFailInput` the cycle
reports failure and the plain gauges alone survive. -/
theorem C1_summary_failure_clears_witness :
    (parseAllureReports summaryFailInput prevSnapshot).1 = false ∧
    (parseAllureReports summaryFailInput prevSnapshot).2.suiteDuration =
      prevSnapshot.suiteDuration :=
  ⟨(C1_summary_failure_clears summaryFailInput prevSnapshot rfl).1,
    (C1_summary_failure_clears summaryFailInput prevSnapshot rfl).2.2.2.2.2.2.2.2.1⟩

/-- Counterexample to C2 as stated: a cycle whose required Summary load
fails still stores the wall clock into `lastParseTime`, and right after
that failed — never successful — cycle the health endpoint answers OK. -/
theorem C2_counterexample :
    (parseCycle summaryFailInput 1700000000 ⟨initialMetrics, 0⟩).1 = false ∧
    (parseCycle summaryFailInput 1700000000
      ⟨initialMetrics, 0⟩).2.lastParseTime = 1700000000 ∧
    healthCheck 1700000000
      (parseCycle summaryFailInput 1700000000 ⟨initialMetrics, 0⟩).2 =
      HealthStatus.ok := by
  refine ⟨?_, rfl, ?_⟩
  · simp [parseCycle, parseAllureReports, summaryFailInput]
  · simp [healthCheck, staleThreshold, parseCycle]

/-- C2 (amended): `lastParseTime` is written at the completion of every
cycle, aborted or successful alike (the deferred store runs on every exit
path), and the health endpoint answers OK exactly when no more than the
staleness threshold has passed since the last cycle completion of any
kind — it never distinguishes successful from failed cycles. -/
theorem C2_timestamp_and_health :
    (∀ (inp : CycleInput) (now : Nat) (ps : ParserState),
      (parseCycle inp now ps).2.lastParseTime = now) ∧
    (∀ (now : Nat) (ps : ParserState),
      healthCheck now ps = HealthStatus.ok ↔
        now - ps.lastParseTime ≤ staleThreshold) := by
  constructor
  · intro inp now ps
    rfl
  · intro now ps
    by_cases h : staleThreshold < now - ps.lastParseTime
    · simp only [healthCheck, if_pos h]
      simp only [reduceCtorEq, false_iff]
      omega
    · simp only [healthCheck, if_neg h]
      simp only [true_iff]
      omega

/-! ## Frame lemmas: which families each update writer touches -/

theorem updateEnvironmentMetrics_testsTotal (env : List (String × String))
    (s : MetricsState) :
    (updateEnvironmentMetrics env s).testsTotal = s.testsTotal := rfl

theorem updateEnvironmentMetrics_suiteDuration (env : List (String × String))
    (s : MetricsState) :
    (updateEnvironmentMetrics env s).suiteDuration = s.suiteDuration := rfl

theorem updateEnvironmentMetrics_flakyRatio (env : List (String × String))
    (s : MetricsState) :
    (updateEnvironmentMetrics env s).flakyRatio = s.flakyRatio := rfl

theorem updateSummaryMetrics_testsTotal (sm : AllureSummary)
    (s : MetricsState) :
    (updateSummaryMetrics sm s).testsTotal =
      setG (setG (setG (setG s.testsTotal "passed" (sm.passed : ℚ))
        "failed" (sm.failed : ℚ)) "broken" (sm.broken : ℚ))
        "skipped" (sm.skipped : ℚ) := rfl

theorem updateSummaryMetrics_suiteDuration (sm : AllureSummary)
    (s : MetricsState) :
    (updateSummaryMetrics sm s).suiteDuration =
      some ((sm.duration : ℚ) / 1000) := rfl

theorem updateSummaryMetrics_flakyRatio (sm : AllureSummary)
    (s : MetricsState) :
    (updateSummaryMetrics sm s).flakyRatio = s.flakyRatio := rfl

theorem updateHistoryMetrics_testsTotal (h : AllureHistoryTrend)
    (s : MetricsState) :
    (updateHistoryMetrics h s).testsTotal = s.testsTotal := by
  by_cases hi : h.items = [] <;> simp [updateHistoryMetrics, hi]

theorem updateHistoryMetrics_suiteDuration (h : AllureHistoryTrend)
    (s : MetricsState) :
    (updateHistoryMetrics h s).suiteDuration = s.suiteDuration := by
  by_cases hi : h.items = [] <;> simp [updateHistoryMetrics, hi]

theorem updateHistoryMetrics_flakyRatio (h : AllureHistoryTrend)
    (s : MetricsState) :
    (updateHistoryMetrics h s).flakyRatio =
      if h.items = [] then s.flakyRatio
      else some (((h.items.filter fun it => decide (0 < it.failed)).length : ℚ) /
        (h.items.length : ℚ)) := by
  by_cases hi : h.items = [] <;> simp [updateHistoryMetrics, hi]

theorem updateTestCaseMetrics_testsTotal (tc : AllureTestCase)
    (s : MetricsState) :
    (updateTestCaseMetrics tc s).testsTotal = s.testsTotal := rfl

theorem updateTestCaseMetrics_suiteDuration (tc : AllureTestCase)
    (s : MetricsState) :
    (updateTestCaseMetrics tc s).suiteDuration = s.suiteDuration := rfl

theorem updateTestCaseMetrics_flakyRatio (tc : AllureTestCase)
    (s : MetricsState) :
    (updateTestCaseMetrics tc s).flakyRatio = s.flakyRatio := rfl

theorem tcFold_nil (s : MetricsState) : tcFold [] s = s := rfl

theorem tcFold_cons (o : Option AllureTestCase) (t : List (Option AllureTestCase))
    (s : MetricsState) :
    tcFold (o :: t) s =
      tcFold t (match o with
        | some tc => updateTestCaseMetrics tc s
        | none => s) := rfl

theorem tcFold_testsTotal (l : List (Option AllureTestCase)) (s : MetricsState) :
    (tcFold l s).testsTotal = s.testsTotal := by
  induction l generalizing s with
  | nil => rfl
  | cons o t ih =>
    rw [tcFold_cons]
    cases o with
    | none => exact ih s
    | some tc => rw [ih, updateTestCaseMetrics_testsTotal]

theorem tcFold_suiteDuration (l : List (Option AllureTestCase))
    (s : MetricsState) : (tcFold l s).suiteDuration = s.suiteDuration := by
  induction l generalizing s with
  | nil => rfl
  | cons o t ih =>
    rw [tcFold_cons]
    cases o with
    | none => exact ih s
    | some tc => rw [ih, updateTestCaseMetrics_suiteDuration]

theorem tcFold_flakyRatio (l : List (Option AllureTestCase))
    (s : MetricsState) : (tcFold l s).flakyRatio = s.flakyRatio := by
  induction l generalizing s with
  | nil => rfl
  | cons o t ih =>
    rw [tcFold_cons]
    cases o with
    | none => exact ih s
    | some tc => rw [ih, updateTestCaseMetrics_flakyRatio]

/-! ## The success path of a cycle -/

theorem parse_success_globOk (inp : CycleInput) (s : MetricsState)
    (h : (parseAllureReports inp s).1 = true) : inp.globOk = true := by
  by_cases hg : inp.globOk = true
  · exact hg
  · have hg2 : inp.globOk = false := by
      cases h2 : inp.globOk
      · rfl
      · exact absurd h2 hg
    cases hsm : inp.summary with
    | none => simp [parseAllureReports, hsm] at h
    | some sm => simp [parseAllureReports, hsm, hg2] at h

theorem parse_success_summary (inp : CycleInput) (s : MetricsState)
    (h : (parseAllureReports inp s).1 = true) :
    ∃ sm, inp.summary = some sm := by
  cases hsm : inp.summary with
  | none => simp [parseAllureReports, hsm] at h
  | some sm => exact ⟨sm, rfl⟩

theorem parse_success_eq (inp : CycleInput) (sm : AllureSummary)
    (s : MetricsState) (hsm : inp.summary = some sm)
    (hg : inp.globOk = true) :
    parseAllureReports inp s =
      (true, tcFold inp.testCases
        ((fun s2 => match inp.history with
           | some h => updateHistoryMetrics h s2
           | none => s2)
          (updateSummaryMetrics sm
            (match inp.environment with
             | some env => updateEnvironmentMetrics env (resetMetrics s)
             | none => resetMetrics s)))) := by
  simp [parseAllureReports, hsm, hg]

/-- C4: whenever a cycle reaches the history step (summary decoded), a
history with at least one point sets the flaky ratio to (points with
failed > 0) over (total points); an empty or absent history leaves the
flaky-ratio gauge untouched for this cycle (never published as 0). -/
theorem C4_flaky_ratio (inp : CycleInput) (s : MetricsState)
    (sm : AllureSummary) (hsm : inp.summary = some sm) :
    (parseAllureReports inp s).2.flakyRatio =
      (match inp.history with
       | some h =>
           if h.items = [] then s.flakyRatio
           else some (((h.items.filter fun it =>
             decide (0 < it.failed)).length : ℚ) / (h.items.length : ℚ))
       | none => s.flakyRatio) := by
  cases hh : inp.history with
  | none =>
    cases hg : inp.globOk <;>
      simp [parseAllureReports, hsm, hh, hg, tcFold_flakyRatio,
        updateSummaryMetrics_flakyRatio, updateEnvironmentMetrics_flakyRatio,
        resetMetrics] <;>
      cases he : inp.environment <;> simp [he, resetMetrics,
        updateEnvironmentMetrics_flakyRatio, updateSummaryMetrics_flakyRatio]
  | some h =>
    cases hg : inp.globOk <;>
      simp [parseAllureReports, hsm, hh, hg, tcFold_flakyRatio,
        updateHistoryMetrics_flakyRatio, updateSummaryMetrics_flakyRatio] <;>
      cases he : inp.environment <;> simp [he, resetMetrics,
        updateEnvironmentMetrics_flakyRatio, updateSummaryMetrics_flakyRatio]

/-- The reference flaky-ratio input: history `[{failed:2},{failed:0},
{failed:1}]` together with a decodable summary. -/
def historyInput : CycleInput :=
  { environment := none,
    summary := some ⟨3, 2, 1, 0, 5500⟩,
    history := some ⟨[⟨2⟩, ⟨0⟩, ⟨1⟩]⟩,
    globOk := true, testCases := [] }

/-- A successful cycle whose history decode failed (file absent). -/
def noHistoryInput : CycleInput :=
  { environment := none,
    summary := some ⟨3, 2, 1, 0, 5500⟩,
    history := none,
    globOk := true, testCases := [] }

/-- Witness for C4 at concrete inputs: the reference history publishes
ratio 2/3, and an absent history leaves the previously published ratio
(here 1/2) in place. -/
theorem C4_flaky_ratio_witness :
    (parseAllureReports historyInput initialMetrics).2.flakyRatio =
      some ((2 : ℚ) / 3) ∧
    (parseAllureReports noHistoryInput prevSnapshot).2.flakyRatio =
      some ((1 : ℚ) / 2) := by
  constructor
  · rw [C4_flaky_ratio historyInput initialMetrics ⟨3, 2, 1, 0, 5500⟩ rfl]
    simp +decide [historyInput]
  · rw [C4_flaky_ratio noHistoryInput prevSnapshot ⟨3, 2, 1, 0, 5500⟩ rfl]
    simp [noHistoryInput, prevSnapshot, initialMetrics]

/-- C8: after a successful cycle the four `tests_total` children equal the
Summary counts, and `suite_duration_seconds` equals the Summary duration
in milliseconds divided by 1000 exactly. -/
theorem C8_summary_metrics (inp : CycleInput) (s : MetricsState)
    (sm : AllureSummary) (hs : (parseAllureReports inp s).1 = true)
    (hsm : inp.summary = some sm) :
    lookupG (parseAllureReports inp s).2.testsTotal "passed" =
      some (sm.passed : ℚ) ∧
    lookupG (parseAllureReports inp s).2.testsTotal "failed" =
      some (sm.failed : ℚ) ∧
    lookupG (parseAllureReports inp s).2.testsTotal "broken" =
      some (sm.broken : ℚ) ∧
    lookupG (parseAllureReports inp s).2.testsTotal "skipped" =
      some (sm.skipped : ℚ) ∧
    (parseAllureReports inp s).2.suiteDuration =
      some ((sm.duration : ℚ) / 1000) := by
  have hg := parse_success_globOk inp s hs
  rw [parse_success_eq inp sm s hsm hg]
  have htt : (tcFold inp.testCases
      ((fun s2 => match inp.history with
         | some h => updateHistoryMetrics h s2
         | none => s2)
        (updateSummaryMetrics sm
          (match inp.environment with
           | some env => updateEnvironmentMetrics env (resetMetrics s)
           | none => resetMetrics s)))).testsTotal =
      (updateSummaryMetrics sm
        (match inp.environment with
         | some env => updateEnvironmentMetrics env (resetMetrics s)
         | none => resetMetrics s)).testsTotal := by
    rw [tcFold_testsTotal]
    cases inp.history <;> simp [updateHistoryMetrics_testsTotal]
  have hsd : (tcFold inp.testCases
      ((fun s2 => match inp.history with
         | some h => updateHistoryMetrics h s2
         | none => s2)
        (updateSummaryMetrics sm
          (match inp.environment with
           | some env => updateEnvironmentMetrics env (resetMetrics s)
           | none => resetMetrics s)))).suiteDuration =
      (updateSummaryMetrics sm
        (match inp.environment with
         | some env => updateEnvironmentMetrics env (resetMetrics s)
         | none => resetMetrics s)).suiteDuration := by
    rw [tcFold_suiteDuration]
    cases inp.history <;> simp [updateHistoryMetrics_suiteDuration]
  refine ⟨?_, ?_, ?_, ?_, ?_⟩
  · rw [htt, updateSummaryMetrics_testsTotal]
    simp +decide [lookupG_setG]
  · rw [htt, updateSummaryMetrics_testsTotal]
    simp +decide [lookupG_setG]
  · rw [htt, updateSummaryMetrics_testsTotal]
    simp +decide [lookupG_setG]
  · rw [htt, updateSummaryMetrics_testsTotal]
    simp +decide [lookupG_setG]
  · rw [hsd, updateSummaryMetrics_suiteDuration]

/-- Witness for C8 at a concrete input: summary counts 3/2/1/0 and
duration 5500 ms export totals 3, 2, 1, 0 and 5.5 seconds. -/
theorem C8_summary_metrics_witness :
    lookupG (parseAllureReports historyInput initialMetrics).2.testsTotal
      "passed" = some 3 ∧
    (parseAllureReports historyInput initialMetrics).2.suiteDuration =
      some ((5500 : ℚ) / 1000) := by
  have h := C8_summary_metrics historyInput initialMetrics ⟨3, 2, 1, 0, 5500⟩
    (by simp [parseAllureReports, historyInput]) rfl
  exact ⟨by simpa using h.1, h.2.2.2.2⟩

/-! ## Idempotence of a successful cycle -/

/-- The state assembled by a successful cycle after the summary update,
before the history step: everything is a function of the cycle input
alone except the flaky-ratio gauge `b`, which still holds its previous
value. -/
def assembledBase (inp : CycleInput) (sm : AllureSummary) (b : Option ℚ) :
    MetricsState :=
  { testsTotal :=
      setG (setG (setG (setG [] "passed" (sm.passed : ℚ))
        "failed" (sm.failed : ℚ)) "broken" (sm.broken : ℚ))
        "skipped" (sm.skipped : ℚ),
    suiteDuration := some ((sm.duration : ℚ) / 1000),
    testDuration := [], testStatus := [],
    flakyRatio := b,
    environmentInfo :=
      (match inp.environment with
       | some env => env.foldl (fun m kv => setG m kv 1) []
       | none => []),
    historyTrend := [], testsByLabel := [], stepsTotal := [] }

theorem preHistory_eq (inp : CycleInput) (sm : AllureSummary)
    (s : MetricsState) :
    updateSummaryMetrics sm
      (match inp.environment with
       | some env => updateEnvironmentMetrics env (resetMetrics s)
       | none => resetMetrics s) = assembledBase inp sm s.flakyRatio := by
  cases he : inp.environment <;>
    simp [he, updateSummaryMetrics, updateEnvironmentMetrics, resetMetrics,
      assembledBase]

theorem updateHistoryMetrics_of_empty (h : AllureHistoryTrend)
    (s : MetricsState) (hi : h.items = []) : updateHistoryMetrics h s = s := by
  simp [updateHistoryMetrics, hi]

theorem updateHistoryMetrics_of_nonempty (h : AllureHistoryTrend)
    (s : MetricsState) (hi : ¬h.items = []) :
    updateHistoryMetrics h s =
      { s with
        historyTrend :=
          h.items.enum.foldl
            (fun m p => setG m ("build_" ++ toString p.1) ((p.2.failed : ℚ)))
            s.historyTrend,
        flakyRatio :=
          some (((h.items.filter fun it => decide (0 < it.failed)).length : ℚ) /
            (h.items.length : ℚ)) } := by
  simp [updateHistoryMetrics, hi]

/-- The complete metric state published by a successful cycle, as a
function of the input and the flaky-ratio gauge value `b` inherited from
the previous cycle. -/
def publishedState (inp : CycleInput) (sm : AllureSummary) (b : Option ℚ) :
    MetricsState :=
  tcFold inp.testCases
    (match inp.history with
     | some h => updateHistoryMetrics h (assembledBase inp sm b)
     | none => assembledBase inp sm b)

theorem parse_success_published (inp : CycleInput) (sm : AllureSummary)
    (s : MetricsState) (hsm : inp.summary = some sm)
    (hg : inp.globOk = true) :
    parseAllureReports inp s = (true, publishedState inp sm s.flakyRatio) := by
  rw [parse_success_eq inp sm s hsm hg]
  simp only [publishedState, preHistory_eq]

theorem publishedState_flakyRatio (inp : CycleInput) (sm : AllureSummary)
    (b : Option ℚ) :
    (publishedState inp sm b).flakyRatio =
      (match inp.history with
       | some h =>
           if h.items = [] then b
           else some (((h.items.filter fun it =>
             decide (0 < it.failed)).length : ℚ) / (h.items.length : ℚ))
       | none => b) := by
  cases hh : inp.history with
  | none => simp [publishedState, hh, tcFold_flakyRatio, assembledBase]
  | some h =>
    simp only [publishedState, hh, tcFold_flakyRatio,
      updateHistoryMetrics_flakyRatio]
    by_cases hi : h.items = [] <;> simp [hi, assembledBase]

theorem publishedState_idem_flaky (inp : CycleInput) (sm : AllureSummary)
    (b : Option ℚ) :
    publishedState inp sm (publishedState inp sm b).flakyRatio =
      publishedState inp sm b := by
  rw [publishedState_flakyRatio]
  cases hh : inp.history with
  | none => rfl
  | some h =>
    by_cases hi : h.items = []
    · simp [hi]
    · simp only [hi, if_neg hi]
      simp only [publishedState, hh]
      congr 1
      rw [updateHistoryMetrics_of_nonempty h _ hi,
        updateHistoryMetrics_of_nonempty h _ hi]
      simp [assembledBase]

/-- C9: when a cycle succeeds, running a second cycle on the unchanged
input yields exactly the state published by the first cycle (in
particular the Inc-accumulated `tests_by_label` counters do not grow,
every family having been reset at the start of the second cycle). -/
theorem C9_idempotent (inp : CycleInput) (s : MetricsState)
    (hs : (parseAllureReports inp s).1 = true) :
    (parseAllureReports inp (parseAllureReports inp s).2).2 =
      (parseAllureReports inp s).2 := by
  obtain ⟨sm, hsm⟩ := parse_success_summary inp s hs
  have hg := parse_success_globOk inp s hs
  have e1 : (parseAllureReports inp s).2 = publishedState inp sm s.flakyRatio := by
    rw [parse_success_published inp sm s hsm hg]
  rw [e1]
  have e2 : (parseAllureReports inp (publishedState inp sm s.flakyRatio)).2 =
      publishedState inp sm (publishedState inp sm s.flakyRatio).flakyRatio := by
    rw [parse_success_published inp sm (publishedState inp sm s.flakyRatio)
      hsm hg]
  rw [e2, publishedState_idem_flaky]

/-- A full-featured cycle input: environment, history, one undecodable
and two decodable test-case files. -/
def fullInput : CycleInput :=
  { environment := some [("os", "linux"), ("browser", "chrome")],
    summary := some ⟨3, 2, 1, 0, 5500⟩,
    history := some ⟨[⟨2⟩, ⟨0⟩, ⟨1⟩]⟩,
    globOk := true,
    testCases := [some mixedCaseTc, none, some negTc] }

/-- Witness for C9 at a concrete input: two consecutive cycles over
`fullInput` publish identical snapshots. -/
theorem C9_idempotent_witness :
    (parseAllureReports fullInput
      (parseAllureReports fullInput initialMetrics).2).2 =
      (parseAllureReports fullInput initialMetrics).2 :=
  C9_idempotent fullInput initialMetrics rfl

/-! ## Publish as a sequence of registry writes visible to readers

The worker holds no lock: every call into the registry (`resetMetrics`,
then each update function) is individually atomic, but a concurrent
scrape may run between any two of them. The cycle is therefore a list of
registry transformations, and a reader can observe the state after any
prefix of that list. -/

/-- The registry writes of one cycle, in program order: the reset, the
environment write when its decode succeeded, and — once the summary
decoded — the summary write, the history write when present, and one
write per decodable test-case file when the glob succeeded. -/
def cycleSteps (inp : CycleInput) : List (MetricsState → MetricsState) :=
  [resetMetrics] ++
  (match inp.environment with
   | some env => [updateEnvironmentMetrics env]
   | none => []) ++
  (match inp.summary with
   | none => []
   | some sm =>
     [updateSummaryMetrics sm] ++
     (match inp.history with
      | some h => [updateHistoryMetrics h]
      | none => []) ++
     (if inp.globOk then
        (inp.testCases.filterMap id).map updateTestCaseMetrics
      else []))

/-- Run a list of registry writes in order. -/
def applySteps (fs : List (MetricsState → MetricsState)) (s : MetricsState) :
    MetricsState :=
  fs.foldl (fun st f => f st) s

/-- Every registry state a concurrent reader can observe while one cycle
runs from state `s`: the state after each prefix of the writes. -/
def observableStates (inp : CycleInput) (s : MetricsState) :
    List MetricsState :=
  List.scanl (fun st f => f st) s (cycleSteps inp)

theorem applySteps_nil (s : MetricsState) : applySteps [] s = s := rfl

theorem applySteps_cons (f : MetricsState → MetricsState)
    (fs : List (MetricsState → MetricsState)) (s : MetricsState) :
    applySteps (f :: fs) s = applySteps fs (f s) := rfl

theorem tcFold_eq_applySteps (l : List (Option AllureTestCase))
    (s : MetricsState) :
    tcFold l s = applySteps ((l.filterMap id).map updateTestCaseMetrics) s := by
  induction l generalizing s with
  | nil => rfl
  | cons o t ih =>
    cases o with
    | none =>
      rw [tcFold_cons]
      simpa using ih s
    | some tc =>
      rw [tcFold_cons]
      simpa using ih (updateTestCaseMetrics tc s)

/-- The sequence of writes, run to completion, produces exactly the state
in which `parseAllureReports` leaves the registry. -/
theorem cycle_eq_applySteps (inp : CycleInput) (s : MetricsState) :
    applySteps (cycleSteps inp) s = (parseAllureReports inp s).2 := by
  cases hsm : inp.summary with
  | none =>
    cases he : inp.environment <;>
      simp [parseAllureReports, cycleSteps, hsm, he, applySteps]
  | some sm =>
    cases he : inp.environment <;> cases hh : inp.history <;>
      cases hg : inp.globOk <;>
      simp [parseAllureReports, cycleSteps, hsm, he, hh, hg, applySteps,
        tcFold_eq_applySteps]

theorem mem_scanl_eq_applySteps_take {α : Type} (fs : List (α → α)) (s st : α)
    (h : st ∈ List.scanl (fun a f => f a) s fs) :
    ∃ n, st = (fs.take n).foldl (fun a f => f a) s := by
  induction fs generalizing s with
  | nil =>
    rw [List.scanl_nil, List.mem_singleton] at h
    exact ⟨0, h⟩
  | cons f t ih =>
    rw [List.scanl_cons] at h
    rcases List.mem_cons.mp h with h1 | h2
    · exact ⟨0, h1⟩
    · obtain ⟨n, hn⟩ := ih (f s) h2
      exact ⟨n + 1, hn⟩

/-- The cycle always begins with the reset, so the fully reset registry is
always among the reader-observable states. -/
theorem resetState_observable (inp : CycleInput) (s : MetricsState) :
    resetMetrics s ∈ observableStates inp s := by
  obtain ⟨rest, hr⟩ : ∃ rest, cycleSteps inp = resetMetrics :: rest := ⟨_, rfl⟩
  simp only [observableStates, hr, List.scanl_cons]
  apply List.mem_cons_of_mem
  cases rest with
  | nil =>
    rw [List.scanl_nil]
    exact List.mem_singleton.mpr rfl
  | cons g t =>
    rw [List.scanl_cons]
    exact List.mem_cons_self _ _

theorem reset_prevSnapshot_ne_prev : resetMetrics prevSnapshot ≠ prevSnapshot := by
  intro h
  have h2 := congrArg MetricsState.testsTotal h
  simp [resetMetrics, prevSnapshot, initialMetrics] at h2

theorem reset_prevSnapshot_ne_final :
    resetMetrics prevSnapshot ≠ (parseAllureReports historyInput prevSnapshot).2 := by
  intro h
  have h2 := congrArg MetricsState.testsTotal h
  simp +decide [resetMetrics, prevSnapshot, initialMetrics, parseAllureReports,
    historyInput, updateSummaryMetrics, updateHistoryMetrics, setG, tcFold] at h2

/-- Counterexample to C3 as stated: while the cycle over `historyInput`
runs from the previously published `prevSnapshot`, a reader can observe
the state right after the reset, which is neither the previous complete
snapshot nor the new complete snapshot. -/
theorem C3_counterexample :
    resetMetrics prevSnapshot ∈ observableStates historyInput prevSnapshot ∧
    resetMetrics prevSnapshot ≠ prevSnapshot ∧
    resetMetrics prevSnapshot ≠ (parseAllureReports historyInput prevSnapshot).2 :=
  ⟨resetState_observable historyInput prevSnapshot,
    reset_prevSnapshot_ne_prev, reset_prevSnapshot_ne_final⟩

/-- C3 (amended): the publish is not atomic with respect to readers. A
concurrent reader observes the registry after some prefix of the cycle's
write sequence — whose last state is the newly published snapshot — and
among those reader-observable states are ones differing from both the
previous and the new complete snapshot, such as the state right after the
reset. -/
theorem C3_not_atomic :
    (∀ (inp : CycleInput) (s st : MetricsState),
      st ∈ observableStates inp s →
        ∃ n, st = applySteps ((cycleSteps inp).take n) s) ∧
    (∀ (inp : CycleInput) (s : MetricsState),
      applySteps (cycleSteps inp) s = (parseAllureReports inp s).2) ∧
    (resetMetrics prevSnapshot ∈ observableStates historyInput prevSnapshot ∧
     resetMetrics prevSnapshot ≠ prevSnapshot ∧
     resetMetrics prevSnapshot ≠
       (parseAllureReports historyInput prevSnapshot).2) :=
  ⟨fun inp s st h => mem_scanl_eq_applySteps_take (cycleSteps inp) s st h,
    cycle_eq_applySteps,
    resetState_observable historyInput prevSnapshot,
    reset_prevSnapshot_ne_prev, reset_prevSnapshot_ne_final⟩

/-- Witness for C3 at a concrete input: the post-reset state observed by a
reader during the `historyInput` cycle is the run of some prefix of the
write sequence. -/
theorem C3_not_atomic_witness :
    ∃ n, resetMetrics prevSnapshot =
      applySteps ((cycleSteps historyInput).take n) prevSnapshot :=
  C3_not_atomic.1 historyInput prevSnapshot (resetMetrics prevSnapshot)
    (resetState_observable historyInput prevSnapshot)

end AllureParser
